import Mathlib

/-!
Verification of the goethe-bot exam-slot booking automation.

This file gives a shallow embedding, in Lean, of the pure logic of the
repository: the virtual-display pool (`prewarmedBrowserPool.ts`), the proxy
round-robin helper (`proxyPool.ts`), the API-URL capture retry loop and the
polling loops of both drafts of `exam-api-finder.ts`, the document schemas
(`userSchema.ts`, `scheduleSchema.ts`) and their derived query and update
operations, and the `prioritizeExams` sorting helper.  Effects (HTTP calls,
browser navigation, timers) are modelled as oracle inputs: each poll tick or
retry attempt receives its observed outcome as data, and the embedded
functions reproduce the TypeScript control flow over those outcomes.
-/

namespace GoetheBot

/-! ### Display pool (`src/browsers/prewarmedBrowserPool.ts`)

`activeDisplays` is a JS `Set<string>`, modelled as a `List String` whose
operations mirror `Set.add` / `Set.delete`; `displayPool` is
`Array.from({length: 20}, (_, i) => ":" ++ (i+1))`. -/

def displayPool : List String :=
  (List.range 20).map (fun i => ":" ++ toString (i + 1))

/-- Models `allocateDisplay`: scan `displayPool` in order, return the first display
not in `activeDisplays` after adding it to the set; `null` if all are busy.
The promise-chain `displayAllocationLock` serializes the scans, so the
operation is modelled as an atomic state transition. -/
def allocateDisplay (active : List String) : Option String × List String :=
  match displayPool.find? (fun d => !(active.contains d)) with
  | some d => (some d, d :: active)
  | none => (none, active)

/-- Models `releaseDisplay`: a `Set.delete` (no effect when absent). -/
def releaseDisplay (active : List String) (d : String) : List String :=
  active.erase d

end GoetheBot

namespace GoetheBot

/-- C3: the fixed pool is exactly ":1" … ":20"; an allocation returns only a
pool display that is not active and marks it active; all twenty active means
`none`; two successive allocations never hand out the same display; a
released display is no longer active. -/
theorem c3_display_pool_invariants :
    (displayPool = [":1", ":2", ":3", ":4", ":5", ":6", ":7", ":8", ":9",
      ":10", ":11", ":12", ":13", ":14", ":15", ":16", ":17", ":18", ":19",
      ":20"] ∧ displayPool.length = 20) ∧
    (∀ active d active', allocateDisplay active = (some d, active') →
      d ∈ displayPool ∧ active.contains d = false ∧
        active'.contains d = true) ∧
    (∀ active, (allocateDisplay active).1 = none ↔
      ∀ d ∈ displayPool, active.contains d = true) ∧
    (∀ active d₁ s₁ d₂ s₂, allocateDisplay active = (some d₁, s₁) →
      allocateDisplay s₁ = (some d₂, s₂) → d₂ ≠ d₁) ∧
    (∀ active d, active.Nodup →
      (releaseDisplay active d).contains d = false) := by
  refine ⟨⟨by decide, by decide⟩, ?_, ?_, ?_, ?_⟩
  · intro active d active' h
    unfold allocateDisplay at h
    cases hf : displayPool.find? (fun d => !(active.contains d)) with
    | none => rw [hf] at h; exact absurd h (by simp)
    | some e =>
      rw [hf] at h
      obtain ⟨he, hd⟩ := Prod.mk.injEq .. ▸ h
      cases he; cases hd
      have hmem := List.mem_of_find?_eq_some hf
      have hpred := List.find?_some hf
      simp only [Bool.not_eq_true'] at hpred
      refine ⟨hmem, hpred, ?_⟩
      simp [List.contains_cons]
  · intro active
    unfold allocateDisplay
    cases hf : displayPool.find? (fun d => !(active.contains d)) with
    | none =>
      simp only [true_iff]
      rw [List.find?_eq_none] at hf
      intro d hd
      have := hf d hd
      simpa using this
    | some e =>
      refine iff_of_false (by simp) ?_
      intro hall
      have hmem := List.mem_of_find?_eq_some hf
      have hpred := List.find?_some hf
      rw [hall e hmem] at hpred
      exact absurd hpred (by decide)
  · intro active d₁ s₁ d₂ s₂ h₁ h₂ heq
    subst heq
    unfold allocateDisplay at h₁ h₂
    cases hf₁ : displayPool.find? (fun d => !(active.contains d)) with
    | none => rw [hf₁] at h₁; exact absurd h₁ (by simp)
    | some e₁ =>
      rw [hf₁] at h₁
      obtain ⟨he₁, hs₁⟩ := Prod.mk.injEq .. ▸ h₁
      cases he₁; cases hs₁
      cases hf₂ : displayPool.find? (fun d => !((d₂ :: active).contains d)) with
      | none => rw [hf₂] at h₂; exact absurd h₂ (by simp)
      | some e₂ =>
        rw [hf₂] at h₂
        obtain ⟨he₂, _⟩ := Prod.mk.injEq .. ▸ h₂
        cases he₂
        have hpred := List.find?_some hf₂
        simp [List.contains_cons] at hpred
  · intro active d hnd
    have hne : d ∉ active.erase d := List.Nodup.not_mem_erase hnd
    simpa [releaseDisplay] using hne

/-- Witness for C3 at concrete states. -/
theorem c3_display_pool_invariants_witness :
    ":1" ∈ displayPool ∧ ([":2"] : List String).contains ":1" = false ∧
    ((releaseDisplay [":1"] ":1").contains ":1" = false) := by
  have h := c3_display_pool_invariants
  obtain ⟨hd, halloc, hnone, hseq, hrel⟩ := h
  have h1 := halloc [":2"] ":1" (":1" :: [":2"]) (by decide)
  exact ⟨h1.1, h1.2.1, hrel [":1"] ":1" (by decide)⟩

/-! ### Proxy pool (`src/proxyPool.ts`)

`ProxyPool` keeps `proxies : ProxyConfig[]`, `currentIndex : number` and a
usage `Map<number, number>` read with `get(i) || 0`, modelled as a total
function `Nat → Nat` that is `0` where the map has no entry. -/

structure ProxyConfig where
  host : String
  port : Nat
  username : Option String
  password : Option String
  type : String
deriving DecidableEq, Repr

structure ProxyPoolState where
  proxies : List ProxyConfig
  currentIndex : Nat
  proxyUsage : Nat → Nat

/-- Models `getNextProxy`: return `proxies[currentIndex]`, bump that index's usage
counter, advance `currentIndex` by one modulo the pool size; `null` and no
state change when the pool is empty. -/
def getNextProxy (s : ProxyPoolState) : Option ProxyConfig × ProxyPoolState :=
  if s.proxies.length == 0 then (none, s)
  else
    let proxy := s.proxies[s.currentIndex]?
    let usage := s.proxyUsage s.currentIndex
    (proxy,
      { s with
        currentIndex := (s.currentIndex + 1) % s.proxies.length
        proxyUsage := fun i =>
          if i == s.currentIndex then usage + 1 else s.proxyUsage i })

/-- The constructor state: `currentIndex = 0`, every usage counter `0`. -/
def initialPoolState (proxies : List ProxyConfig) : ProxyPoolState :=
  { proxies := proxies, currentIndex := 0, proxyUsage := fun _ => 0 }

/-- State after `k` calls to `getNextProxy`. -/
def callsFrom (s : ProxyPoolState) : Nat → ProxyPoolState
  | 0 => s
  | k + 1 => (getNextProxy (callsFrom s k)).2

/-- Result of the `k`-th call (counting from 0) to `getNextProxy`. -/
def nthProxy (s : ProxyPoolState) (k : Nat) : Option ProxyConfig :=
  (getNextProxy (callsFrom s k)).1

theorem getNextProxy_of_ne_nil (s : ProxyPoolState) (h : s.proxies ≠ []) :
    getNextProxy s =
      (s.proxies[s.currentIndex]?,
        { s with
          currentIndex := (s.currentIndex + 1) % s.proxies.length
          proxyUsage := fun i =>
            if i == s.currentIndex then s.proxyUsage s.currentIndex + 1
            else s.proxyUsage i }) := by
  unfold getNextProxy
  rw [if_neg]
  simpa using h

theorem callsFrom_currentIndex (p : List ProxyConfig) (hp : p ≠ []) :
    ∀ k, (callsFrom (initialPoolState p) k).currentIndex = k % p.length ∧
      (callsFrom (initialPoolState p) k).proxies = p := by
  intro k
  induction k with
  | zero =>
    constructor
    · simp [callsFrom, initialPoolState, Nat.zero_mod]
    · rfl
  | succ k ih =>
    obtain ⟨hidx, hpp⟩ := ih
    have hne : (callsFrom (initialPoolState p) k).proxies ≠ [] := by
      rw [hpp]; exact hp
    constructor
    · show (getNextProxy (callsFrom (initialPoolState p) k)).2.currentIndex = _
      rw [getNextProxy_of_ne_nil _ hne]
      simp only [hidx, hpp]
      exact Nat.mod_add_mod k p.length 1 ▸ rfl
    · show (getNextProxy (callsFrom (initialPoolState p) k)).2.proxies = p
      rw [getNextProxy_of_ne_nil _ hne]
      exact hpp

/-- Mapping `some` over a list gives the values `l[j]?` for `j < l.length`. -/
theorem map_some_eq_range_map (l : List ProxyConfig) :
    l.map some = (List.range l.length).map (fun j => l[j]?) := by
  induction l with
  | nil => rfl
  | cons x xs ih =>
    simp only [List.map_cons, List.length_cons, List.range_succ_eq_map,
      List.map_map]
    congr 1
    · simp
    · rw [ih]
      refine List.map_congr_left (fun j _ => ?_)
      simp

/-- Shifting by `k0` and reducing mod `n` permutes `range n`. -/
theorem window_index_perm (n k0 : Nat) (hn : 0 < n) :
    ((List.range n).map (fun j => (k0 + j) % n)).Perm (List.range n) := by
  have hnodup : ((List.range n).map (fun j => (k0 + j) % n)).Nodup := by
    refine List.Nodup.map_on ?_ (List.nodup_range n)
    intro j1 h1 j2 h2 heq
    rw [List.mem_range] at h1 h2
    have hmodeq : j1 ≡ j2 [MOD n] :=
      Nat.ModEq.add_left_cancel' k0 heq
    have h' : j1 % n = j2 % n := hmodeq
    rwa [Nat.mod_eq_of_lt h1, Nat.mod_eq_of_lt h2] at h'
  have hsub : ((List.range n).map (fun j => (k0 + j) % n)) ⊆ List.range n := by
    intro x hx
    rw [List.mem_map] at hx
    obtain ⟨j, _, hj⟩ := hx
    rw [List.mem_range, ← hj]
    exact Nat.mod_lt _ hn
  have hsp := hnodup.subperm hsub
  refine hsp.perm_of_length_le ?_
  simp

/-- C5: round-robin proxy selection.  From the constructor state with `n > 0`
proxies, the `k`-th call returns `proxies[k mod n]` (and leaves
`currentIndex = (k+1) mod n` for the next call); every window of `n`
consecutive calls returns each proxy exactly once; an empty pool yields
`null` with the state unchanged; each call bumps exactly the served index's
usage counter by one. -/
theorem c5_proxy_round_robin :
    (∀ s : ProxyPoolState, s.proxies = [] → getNextProxy s = (none, s)) ∧
    (∀ (p : List ProxyConfig) (k : Nat), p ≠ [] →
      nthProxy (initialPoolState p) k = p[k % p.length]?) ∧
    (∀ (p : List ProxyConfig) (k : Nat), p ≠ [] →
      (callsFrom (initialPoolState p) k).currentIndex = k % p.length) ∧
    (∀ (p : List ProxyConfig) (k0 : Nat), p ≠ [] →
      ((List.range p.length).map
        (fun j => nthProxy (initialPoolState p) (k0 + j))).Perm
        (p.map some)) ∧
    (∀ (s : ProxyPoolState) (i : Nat), s.proxies ≠ [] →
      (getNextProxy s).2.proxyUsage i =
        s.proxyUsage i + (if i = s.currentIndex then 1 else 0)) := by
  have hnth : ∀ (p : List ProxyConfig) (k : Nat), p ≠ [] →
      nthProxy (initialPoolState p) k = p[k % p.length]? := by
    intro p k hp
    obtain ⟨hidx, hpp⟩ := callsFrom_currentIndex p hp k
    have hne : (callsFrom (initialPoolState p) k).proxies ≠ [] := by
      rw [hpp]; exact hp
    unfold nthProxy
    rw [getNextProxy_of_ne_nil _ hne]
    simp only [hidx, hpp]
  refine ⟨?_, hnth, fun p k hp => (callsFrom_currentIndex p hp k).1, ?_, ?_⟩
  · intro s hs
    unfold getNextProxy
    rw [if_pos]
    simp [hs]
  · intro p k0 hp
    have hn : 0 < p.length := List.length_pos.mpr hp
    have h1 : (List.range p.length).map
        (fun j => nthProxy (initialPoolState p) (k0 + j)) =
        ((List.range p.length).map (fun j => (k0 + j) % p.length)).map
          (fun i => p[i]?) := by
      rw [List.map_map]
      exact List.map_congr_left (fun j _ => hnth p (k0 + j) hp)
    rw [h1, map_some_eq_range_map]
    exact (window_index_perm p.length k0 hn).map _
  · intro s i hs
    rw [getNextProxy_of_ne_nil s hs]
    by_cases h : i = s.currentIndex
    · simp [h]
    · simp [h, beq_iff_eq]

/-- Witness for C5 at a concrete two-proxy pool. -/
theorem c5_proxy_round_robin_witness :
    nthProxy (initialPoolState
      [⟨"a", 1, none, none, "http"⟩, ⟨"b", 2, none, none, "http"⟩]) 3 =
      some ⟨"b", 2, none, none, "http"⟩ ∧
    (getNextProxy (initialPoolState
      [⟨"a", 1, none, none, "http"⟩])).2.proxyUsage 0 = 1 := by
  have h := c5_proxy_round_robin
  constructor
  · have := h.2.1 [⟨"a", 1, none, none, "http"⟩, ⟨"b", 2, none, none, "http"⟩]
      3 (by decide)
    rw [this]
    rfl
  · have := h.2.2.2.2 (initialPoolState [⟨"a", 1, none, none, "http"⟩]) 0
      (by decide)
    rw [this]
    rfl

/-! ### Schedule schema (`scheduleSchema.ts`) and its writers

The schema declares `status` with an `enum` validator and default
`"pending"`.  Times are UNIX milliseconds (`Date.now()`). -/

def scheduleStatusEnum : List String :=
  ["pending", "running", "paused", "failed", "success", "stopped"]

def scheduleStatusDefault : String := "pending"

/-- A persisted `Schedule` document (fields with schema defaults present). -/
structure ScheduleDoc where
  name : String
  runAt : Nat
  completed : Bool
  status : String
  lastRun : Option Nat
  lastError : Option String
  monitoringStarted : Bool
  retryCount : Nat
  maxRetries : Nat
  lastAttemptTime : Option Nat
deriving DecidableEq, Repr

/-- The `status` value written by the post-booking update in
`src/cluster/runCluster.ts` (`navSuccessCount > 0 ? "success" : "failed"`). -/
def runClusterPostBookingStatus (navSuccessCount : Nat) : String :=
  if 0 < navSuccessCount then "success" else "failed"

/-- The `status` value written by the post-booking update in the alternate
cluster draft (`unnamed/part_002`):
`errorCount === 0 ? "success" : "partial_success"`. -/
def part002PostBookingStatus (errorCount : Nat) : String :=
  if errorCount == 0 then "success" else "partial_success"

/-- Models `scheduleSchema.methods.incrementRetry`: bump `retryCount` by one and set
`lastAttemptTime` to the current time, then save. -/
def incrementRetry (s : ScheduleDoc) (now : Nat) : ScheduleDoc :=
  { s with retryCount := s.retryCount + 1, lastAttemptTime := some now }

/-- The filter of `Schedule.findReadyForRetry`: not completed, status
`"failed"`, `retryCount < maxRetries`, and `lastAttemptTime` absent or before
`now - minMinutesBetweenRetries` minutes. -/
def readyForRetryPred (now m : Nat) (s : ScheduleDoc) : Bool :=
  !s.completed && s.status == "failed" &&
    decide (s.retryCount < s.maxRetries) &&
    (match s.lastAttemptTime with
     | none => true
     | some t => decide (t < now - m * 60 * 1000))

/-- Models `Schedule.findReadyForRetry(minMinutesBetweenRetries = 2)`. -/
def findReadyForRetry (docs : List ScheduleDoc) (now : Nat)
    (m : Nat := 2) : List ScheduleDoc :=
  docs.filter (readyForRetryPred now m)

end GoetheBot

namespace GoetheBot

/-- C9: every schedule returned by `findReadyForRetry` is incomplete, failed,
below its retry cap, and either never attempted or attempted before the
cutoff; a schedule at its retry cap is never returned; `m` defaults to 2;
`incrementRetry` adds exactly one to `retryCount` and stamps
`lastAttemptTime`. -/
theorem c9_find_ready_for_retry :
    (∀ (docs : List ScheduleDoc) (now m : Nat) (s : ScheduleDoc),
      s ∈ findReadyForRetry docs now m →
        s.completed = false ∧ s.status = "failed" ∧
        s.retryCount < s.maxRetries ∧
        (s.lastAttemptTime = none ∨
          ∃ t, s.lastAttemptTime = some t ∧ t < now - m * 60 * 1000)) ∧
    (∀ (docs : List ScheduleDoc) (now m : Nat) (s : ScheduleDoc),
      s.maxRetries ≤ s.retryCount → s ∉ findReadyForRetry docs now m) ∧
    (∀ (docs : List ScheduleDoc) (now : Nat),
      findReadyForRetry docs now = findReadyForRetry docs now 2) ∧
    (∀ (s : ScheduleDoc) (now : Nat),
      (incrementRetry s now).retryCount = s.retryCount + 1 ∧
      (incrementRetry s now).lastAttemptTime = some now) := by
  have hmem : ∀ (docs : List ScheduleDoc) (now m : Nat) (s : ScheduleDoc),
      s ∈ findReadyForRetry docs now m → readyForRetryPred now m s = true :=
    fun docs now m s h => (List.mem_filter.mp h).2
  refine ⟨?_, ?_, fun docs now => rfl, fun s now => ⟨rfl, rfl⟩⟩
  · intro docs now m s h
    have hp := hmem docs now m s h
    unfold readyForRetryPred at hp
    simp only [Bool.and_eq_true, Bool.not_eq_true', beq_iff_eq,
      decide_eq_true_eq] at hp
    obtain ⟨⟨⟨hc, hst⟩, hrc⟩, hla⟩ := hp
    refine ⟨hc, hst, hrc, ?_⟩
    cases hlat : s.lastAttemptTime with
    | none => exact Or.inl rfl
    | some t =>
      rw [hlat] at hla
      simp only [decide_eq_true_eq] at hla
      exact Or.inr ⟨t, rfl, hla⟩
  · intro docs now m s hge h
    have hp := hmem docs now m s h
    unfold readyForRetryPred at hp
    simp only [Bool.and_eq_true, decide_eq_true_eq] at hp
    exact absurd hp.1.2 (Nat.not_lt.mpr hge)

/-- Witness for C9 at a concrete ready-for-retry schedule. -/
theorem c9_find_ready_for_retry_witness :
    (⟨"s", 0, false, "failed", none, none, false, 1, 5, some 0⟩ : ScheduleDoc)
      ∈ findReadyForRetry
        [⟨"s", 0, false, "failed", none, none, false, 1, 5, some 0⟩]
        1000000 2 ∧
    (⟨"s", 0, false, "failed", none, none, false, 1, 5,
      some 0⟩ : ScheduleDoc).retryCount <
      (⟨"s", 0, false, "failed", none, none, false, 1, 5,
        some 0⟩ : ScheduleDoc).maxRetries := by
  have hmem : (⟨"s", 0, false, "failed", none, none, false, 1, 5,
      some 0⟩ : ScheduleDoc) ∈ findReadyForRetry
        [⟨"s", 0, false, "failed", none, none, false, 1, 5, some 0⟩]
        1000000 2 := by decide
  exact ⟨hmem,
    (c9_find_ready_for_retry.1 _ 1000000 2 _ hmem).2.2.1⟩

/-- C8 (code bug): the schema's `status` enum is the six values with default
`"pending"`, and the `runCluster.ts` post-booking update stays inside it,
but the alternate cluster draft (`unnamed/part_002`) writes
`"partial_success"` — a value outside the declared enum — whenever at least
one browser fails (`findByIdAndUpdate` bypasses the enum validator). -/
theorem c8_status_enum_violated_by_part002 :
    scheduleStatusDefault ∈ scheduleStatusEnum ∧
    (∀ n, scheduleStatusEnum.contains (runClusterPostBookingStatus n) =
      true) ∧
    part002PostBookingStatus 1 = "partial_success" ∧
    scheduleStatusEnum.contains (part002PostBookingStatus 1) = false := by
  refine ⟨by decide, ?_, by decide, by decide⟩
  intro n
  unfold runClusterPostBookingStatus
  by_cases h : 0 < n
  · rw [if_pos h]; decide
  · rw [if_neg h]; decide

/-! ### User schema (`src/models/userSchema.ts`)

`telegramId` is declared `required: true, unique: true`; `username` is an
optional plain string.  Persistence through mongoose / the unique index is
modelled as an insert that rejects a missing required field and a duplicate
value of a unique field, driven by the declared flags. -/

structure UserFieldSpec where
  required : Bool
  unique : Bool
deriving DecidableEq, Repr

/-- The declaration of the `telegramId` field in `userSchema`. -/
def telegramIdSpec : UserFieldSpec := { required := true, unique := true }

structure UserDoc where
  telegramId : Option String
  username : Option String
deriving DecidableEq, Repr

/-- Insert of a `User` document under the declared schema: the required
validator rejects a document without `telegramId`; the unique index rejects a
`telegramId` already stored. -/
def insertUser (store : List UserDoc) (u : UserDoc) :
    Option (List UserDoc) :=
  if telegramIdSpec.required && u.telegramId.isNone then none
  else if telegramIdSpec.unique &&
      store.any (fun v => v.telegramId == u.telegramId) then none
  else some (store ++ [u])

/-- Stores reachable from the empty collection by successful inserts. -/
inductive UserStoreReachable : List UserDoc → Prop where
  | empty : UserStoreReachable []
  | insert {s : List UserDoc} {u : UserDoc} {s' : List UserDoc} :
      UserStoreReachable s → insertUser s u = some s' →
      UserStoreReachable s'

end GoetheBot

namespace GoetheBot

/-- C7: in every reachable `User` collection, each document carries a
`telegramId` and no two documents share one. -/
theorem c7_user_telegram_id_unique {s : List UserDoc}
    (h : UserStoreReachable s) :
    (∀ u ∈ s, u.telegramId.isSome = true) ∧
    s.Pairwise (fun a b => a.telegramId ≠ b.telegramId) := by
  induction h with
  | empty => exact ⟨fun u hu => absurd hu (List.not_mem_nil u), .nil⟩
  | @insert s u s' _ hins ih =>
    simp only [insertUser, telegramIdSpec, Bool.true_and] at hins
    by_cases hreq : u.telegramId.isNone = true
    · rw [if_pos hreq] at hins; exact absurd hins (by simp)
    · rw [if_neg hreq] at hins
      by_cases huniq : (s.any fun v => v.telegramId == u.telegramId) = true
      case pos =>
        rw [if_pos huniq] at hins; exact absurd hins (by simp)
      case neg =>
        rw [if_neg huniq] at hins
        have hs' : s' = s ++ [u] := (Option.some.inj hins).symm
        subst hs'
        have husome : u.telegramId.isSome = true := by
          simpa [Option.isNone_iff_eq_none, Option.isSome_iff_ne_none]
            using hreq
        have hnodup : ∀ v ∈ s, v.telegramId ≠ u.telegramId := by
          simp only [List.any_eq_true, beq_iff_eq, not_exists, not_and]
            at huniq
          exact fun v hv => huniq v hv
        constructor
        · intro v hv
          rcases List.mem_append.mp hv with hv | hv
          · exact ih.1 v hv
          · rw [List.mem_singleton.mp hv]; exact husome
        · rw [List.pairwise_append]
          refine ⟨ih.2, List.pairwise_singleton .., ?_⟩
          intro a ha b hb
          rw [List.mem_singleton.mp hb]
          exact hnodup a ha

/-- Witness for C7: a two-document reachable store. -/
theorem c7_user_telegram_id_unique_witness :
    (∀ u ∈ [(⟨some "1", none⟩ : UserDoc), ⟨some "2", some "bob"⟩],
      u.telegramId.isSome = true) ∧
    ([(⟨some "1", none⟩ : UserDoc), ⟨some "2", some "bob"⟩].Pairwise
      (fun a b => a.telegramId ≠ b.telegramId)) := by
  have h1 : insertUser [] ⟨some "1", none⟩ = some [⟨some "1", none⟩] := by
    decide
  have h2 : insertUser [⟨some "1", none⟩] ⟨some "2", some "bob"⟩ =
      some [⟨some "1", none⟩, ⟨some "2", some "bob"⟩] := by decide
  exact c7_user_telegram_id_unique
    (UserStoreReachable.insert (UserStoreReachable.insert
      UserStoreReachable.empty h1) h2)

/-! ### Exam API data (`src/api/exam-api-finder.ts`)

The REST payload: `DATA` is an optional array of exam records.  Optional
string fields keep JS truthiness (`undefined` and `""` are falsy). -/

structure ExamModule where
  date : String
  startTime : String
deriving DecidableEq, Repr

structure ExamData where
  oid : Option String
  modules : Option (List ExamModule)
  bookFromStamp : Option String
  bookToStamp : Option String
  eventName : Option String
  locationName : Option String
deriving DecidableEq, Repr

structure ApiResponse where
  DATA : Option (List ExamData)
deriving DecidableEq, Repr

/-- JS truthiness of an optional string: present and non-empty. -/
def truthyStr : Option String → Bool
  | some s => !(s == "")
  | none => false

/-! ### `captureApiUrl` retry loop (both drafts share the same loop)

Each attempt launches a browser and either captures an `examfinder` URL or
fails (timeout, navigation error, browser error — all caught); the outcome of
attempt `k` is the oracle value `oracle k`.  After failed attempt
`k < maxRetries` the loop sleeps `min(retryDelay * k, 15000)` ms.  The model
returns the result, the number of attempts made, and the list of waits. -/

def captureWait (retryDelay attempt : Nat) : Nat :=
  min (retryDelay * attempt) 15000

def captureAux (oracle : Nat → Option String) (retryDelay : Nat) :
    Nat → Nat → Option String × Nat × List Nat
  | _, 0 => (none, 0, [])
  | attempt, fuel + 1 =>
    match oracle attempt with
    | some url => (some url, 1, [])
    | none =>
      if fuel = 0 then (none, 1, [])
      else
        let r := captureAux oracle retryDelay (attempt + 1) fuel
        (r.1, r.2.1 + 1, captureWait retryDelay attempt :: r.2.2)

def captureApiUrl (oracle : Nat → Option String)
    (maxRetries : Nat := 30) (retryDelay : Nat := 5000) :
    Option String × Nat × List Nat :=
  captureAux oracle retryDelay 1 maxRetries

/-! ### `makeApiRequest` (second draft)

An attempt either throws (network error, timeout, 5xx rejected by
`validateStatus`) or yields a status `< 500` with a parsed body.  429 waits
and retries; other `4xx` retries while attempts remain, else `null`; a status
`< 400` returns the body at once. -/

inductive ApiAttempt where
  | throws
  | status (code : Nat) (data : ApiResponse)
deriving DecidableEq, Repr

/-- An attempt that does not produce a usable response. -/
def apiAttemptFails : ApiAttempt → Bool
  | .throws => true
  | .status code _ => decide (400 ≤ code)

def makeApiRequestAux (oracle : Nat → ApiAttempt) :
    Nat → Nat → Option ApiResponse × Nat
  | _, 0 => (none, 0)
  | attempt, fuel + 1 =>
    match oracle attempt with
    | .throws =>
      let r := makeApiRequestAux oracle (attempt + 1) fuel
      (r.1, r.2 + 1)
    | .status code data =>
      if code == 429 then
        let r := makeApiRequestAux oracle (attempt + 1) fuel
        (r.1, r.2 + 1)
      else if 400 ≤ code then
        if 0 < fuel then
          let r := makeApiRequestAux oracle (attempt + 1) fuel
          (r.1, r.2 + 1)
        else (none, 1)
      else (some data, 1)

def makeApiRequest (oracle : Nat → ApiAttempt) (retries : Nat := 3) :
    Option ApiResponse × Nat :=
  makeApiRequestAux oracle 1 retries

theorem captureAux_attempts_le (oracle : Nat → Option String)
    (d : Nat) : ∀ (fuel attempt : Nat),
    (captureAux oracle d attempt fuel).2.1 ≤ fuel := by
  intro fuel
  induction fuel with
  | zero => intro a; simp [captureAux]
  | succ f ih =>
    intro a
    unfold captureAux
    cases oracle a with
    | some url => simp
    | none =>
      by_cases hf : f = 0
      · simp [hf]
      · rw [if_neg hf]
        simpa using ih (a + 1)

theorem makeApiRequestAux_attempts_le (oracle : Nat → ApiAttempt) :
    ∀ (fuel attempt : Nat),
    (makeApiRequestAux oracle attempt fuel).2 ≤ fuel := by
  intro fuel
  induction fuel with
  | zero => intro a; simp [makeApiRequestAux]
  | succ f ih =>
    intro a
    unfold makeApiRequestAux
    cases oracle a with
    | throws => simpa using ih (a + 1)
    | status code data =>
      dsimp only
      by_cases h429 : (code == 429) = true
      · rw [if_pos h429]; simpa using ih (a + 1)
      · rw [if_neg h429]
        by_cases h4 : 400 ≤ code
        · rw [if_pos h4]
          by_cases hf : 0 < f
          · rw [if_pos hf]; simpa using ih (a + 1)
          · rw [if_neg hf]; simp
        · rw [if_neg h4]; simp

theorem captureAux_all_fail (oracle : Nat → Option String) (d : Nat) :
    ∀ (fuel attempt : Nat),
    (∀ k, attempt ≤ k → k < attempt + fuel → oracle k = none) →
    (captureAux oracle d attempt fuel).1 = none := by
  intro fuel
  induction fuel with
  | zero => intro a _; simp [captureAux]
  | succ f ih =>
    intro a hall
    unfold captureAux
    rw [hall a (Nat.le_refl a) (by omega)]
    by_cases hf : f = 0
    · simp [hf]
    · rw [if_neg hf]
      simpa using ih (a + 1) (fun k hk hk' => hall k (by omega) (by omega))

theorem makeApiRequestAux_all_fail (oracle : Nat → ApiAttempt) :
    ∀ (fuel attempt : Nat),
    (∀ k, attempt ≤ k → k < attempt + fuel →
      apiAttemptFails (oracle k) = true) →
    (makeApiRequestAux oracle attempt fuel).1 = none := by
  intro fuel
  induction fuel with
  | zero => intro a _; simp [makeApiRequestAux]
  | succ f ih =>
    intro a hall
    have hfail := hall a (Nat.le_refl a) (by omega)
    have ihrec := ih (a + 1) (fun k hk hk' => hall k (by omega) (by omega))
    unfold makeApiRequestAux
    cases ho : oracle a with
    | throws => simpa using ihrec
    | status code data =>
      rw [ho] at hfail
      simp only [apiAttemptFails, decide_eq_true_eq] at hfail
      dsimp only
      by_cases h429 : (code == 429) = true
      · rw [if_pos h429]; simpa using ihrec
      · rw [if_neg h429, if_pos hfail]
        by_cases hf : 0 < f
        · rw [if_pos hf]; simpa using ihrec
        · rw [if_neg hf]

theorem captureAux_first_success (oracle : Nat → Option String) (d : Nat) :
    ∀ (fuel attempt k : Nat) (u : String), oracle k = some u →
    attempt ≤ k → k < attempt + fuel →
    (∀ j, attempt ≤ j → j < k → oracle j = none) →
    (captureAux oracle d attempt fuel).1 = some u ∧
    (captureAux oracle d attempt fuel).2.1 = k - attempt + 1 := by
  intro fuel
  induction fuel with
  | zero => intro a k u _ _ hlt _; omega
  | succ f ih =>
    intro a k u hk hak hlt hprev
    unfold captureAux
    by_cases hka : k = a
    · subst hka
      rw [hk]
      simp
    · have ha : oracle a = none := hprev a (Nat.le_refl a) (by omega)
      rw [ha]
      have hf : f ≠ 0 := by
        intro h
        subst h
        omega
      rw [if_neg hf]
      have := ih (a + 1) k u hk (by omega) (by omega)
        (fun j hj hj' => hprev j (by omega) hj')
      refine ⟨this.1, ?_⟩
      simp only [this.2]
      omega

theorem captureAux_attempts_pos (oracle : Nat → Option String) (d : Nat)
    (fuel attempt : Nat) (hf : 0 < fuel) :
    0 < (captureAux oracle d attempt fuel).2.1 := by
  cases fuel with
  | zero => omega
  | succ f =>
    unfold captureAux
    cases oracle attempt with
    | some url => simp
    | none =>
      by_cases h : f = 0
      · simp [h]
      · rw [if_neg h]; simp

/-- The waits recorded by the capture loop are exactly
`captureWait d k` for the non-final attempts `k = a, a+1, …`. -/
theorem captureAux_waits (oracle : Nat → Option String) (d : Nat) :
    ∀ (fuel attempt : Nat),
    (captureAux oracle d attempt fuel).2.2 =
      (List.range' attempt ((captureAux oracle d attempt fuel).2.1 - 1)).map
        (captureWait d) := by
  intro fuel
  induction fuel with
  | zero => intro a; simp [captureAux]
  | succ f ih =>
    intro a
    unfold captureAux
    cases oracle a with
    | some url => simp
    | none =>
      by_cases hf : f = 0
      · simp [hf]
      · rw [if_neg hf]
        dsimp only
        have hpos := captureAux_attempts_pos oracle d f (a + 1)
          (Nat.pos_of_ne_zero hf)
        have hsub : (captureAux oracle d (a + 1) f).2.1 + 1 - 1 =
            ((captureAux oracle d (a + 1) f).2.1 - 1) + 1 := by omega
        rw [hsub, List.range'_succ, List.map_cons, ← ih (a + 1)]

end GoetheBot

namespace GoetheBot

/-- C4: capped retries.  `captureApiUrl` makes at most `maxRetries` attempts
(default 30, by definition); if every attempt in range fails it returns
`null` (the per-attempt try/catch means no exception escapes); as soon as
attempt `k` is the first to succeed it returns that URL after exactly `k`
attempts.  `makeApiRequest` makes at most `retries` attempts (default 3, by
definition) and returns `null` when all of them fail. -/
theorem c4_retry_caps :
    (∀ (oracle : Nat → Option String) (m d : Nat),
      (captureApiUrl oracle m d).2.1 ≤ m) ∧
    (∀ (oracle : Nat → Option String) (m d : Nat),
      (∀ k, 1 ≤ k → k ≤ m → oracle k = none) →
      (captureApiUrl oracle m d).1 = none) ∧
    (∀ (oracle : Nat → Option String) (m d k : Nat) (u : String),
      oracle k = some u → 1 ≤ k → k ≤ m →
      (∀ j, 1 ≤ j → j < k → oracle j = none) →
      (captureApiUrl oracle m d).1 = some u ∧
      (captureApiUrl oracle m d).2.1 = k) ∧
    (∀ oracle : Nat → Option String,
      captureApiUrl oracle = captureAux oracle 5000 1 30) ∧
    (∀ (oracle : Nat → ApiAttempt) (r : Nat),
      (makeApiRequest oracle r).2 ≤ r) ∧
    (∀ oracle : Nat → ApiAttempt,
      makeApiRequest oracle = makeApiRequestAux oracle 1 3) ∧
    (∀ (oracle : Nat → ApiAttempt) (r : Nat),
      (∀ k, 1 ≤ k → k ≤ r → apiAttemptFails (oracle k) = true) →
      (makeApiRequest oracle r).1 = none) := by
  refine ⟨fun oracle m d => captureAux_attempts_le oracle d m 1,
    ?_, ?_, fun oracle => rfl,
    fun oracle r => makeApiRequestAux_attempts_le oracle r 1,
    fun oracle => rfl, ?_⟩
  · intro oracle m d hall
    exact captureAux_all_fail oracle d m 1
      (fun k hk hk' => hall k hk (by omega))
  · intro oracle m d k u hk h1 hm hprev
    have := captureAux_first_success oracle d m 1 k u hk h1 (by omega) hprev
    refine ⟨this.1, ?_⟩
    show (captureAux oracle d 1 m).2.1 = k
    rw [this.2]
    omega
  · intro oracle r hall
    exact makeApiRequestAux_all_fail oracle r 1
      (fun k hk hk' => hall k hk (by omega))

/-- Witness for C4: success on the second of three capture attempts, and an
always-failing three-attempt `makeApiRequest`. -/
theorem c4_retry_caps_witness :
    (captureApiUrl (fun k => if k = 2 then some "u" else none) 3 5000).1 =
      some "u" ∧
    (captureApiUrl (fun k => if k = 2 then some "u" else none) 3 5000).2.1 =
      2 ∧
    (makeApiRequest (fun _ => ApiAttempt.throws) 3).1 = none := by
  have h := c4_retry_caps
  have hfirst := h.2.2.1 (fun k => if k = 2 then some "u" else none) 3 5000 2
    "u" (by decide) (by decide) (by decide)
    (by intro j h1 h2; interval_cases j; decide)
  have hfail := h.2.2.2.2.2.2 (fun _ => ApiAttempt.throws) 3
    (fun k _ _ => rfl)
  exact ⟨hfirst.1, hfirst.2, hfail⟩

/-- C6: between consecutive capture attempts the loop waits exactly
`min(retryDelay * k, 15000)` ms after failed attempt `k`; the recorded waits
from a run starting at attempt 1 are those of attempts `1 … attempts-1` (one
fewer wait than attempts, so none after the final attempt); the wait is
nondecreasing in `k` and never exceeds 15000. -/
theorem c6_capture_backoff :
    (∀ (oracle : Nat → Option String) (m d : Nat),
      (captureApiUrl oracle m d).2.2 =
        (List.range' 1 ((captureApiUrl oracle m d).2.1 - 1)).map
          (captureWait d)) ∧
    (∀ (oracle : Nat → Option String) (m d : Nat),
      (captureApiUrl oracle m d).2.2.length =
        (captureApiUrl oracle m d).2.1 - 1) ∧
    (∀ d k, captureWait d k ≤ captureWait d (k + 1)) ∧
    (∀ d k, captureWait d k ≤ 15000) ∧
    (∀ (oracle : Nat → Option String) (m d : Nat),
      ∀ w ∈ (captureApiUrl oracle m d).2.2, w ≤ 15000) := by
  have hwaits : ∀ (oracle : Nat → Option String) (m d : Nat),
      (captureApiUrl oracle m d).2.2 =
        (List.range' 1 ((captureApiUrl oracle m d).2.1 - 1)).map
          (captureWait d) :=
    fun oracle m d => captureAux_waits oracle d m 1
  have hcap : ∀ d k, captureWait d k ≤ 15000 :=
    fun d k => Nat.min_le_right ..
  refine ⟨hwaits, ?_, ?_, hcap, ?_⟩
  · intro oracle m d
    rw [hwaits oracle m d]
    simp
  · intro d k
    unfold captureWait
    have : d * k ≤ d * (k + 1) := Nat.mul_le_mul_left d (by omega)
    omega
  · intro oracle m d w hw
    rw [hwaits oracle m d] at hw
    obtain ⟨k, _, hk⟩ := List.mem_map.mp hw
    rw [← hk]
    exact hcap d k

/-- Witness for C6: three failing attempts with `retryDelay = 9000` record
waits 9000 then 15000 (the cap). -/
theorem c6_capture_backoff_witness :
    (captureApiUrl (fun _ => none) 3 9000).2.2 = [9000, 15000] ∧
    (∀ w ∈ (captureApiUrl (fun _ => none) 3 9000).2.2, w ≤ 15000) := by
  have h := c6_capture_backoff
  constructor
  · rw [h.1 (fun _ => none) 3 9000]
    rfl
  · exact h.2.2.2.2 (fun _ => none) 3 9000

/-! ### The polling loops (`ExamApiMonitor.startPolling`, both drafts)

State: the `Set` of processed OIDs, the `processingOid` flag and the
`shouldStopPolling` flag.  A tick receives the poll's observed response
(`none`: API error or missing/ill-formed `DATA`) and whether the pending OID
handler completed before the tick (its `finally`/`catch` resets
`processingOid`).  Each tick returns the new state and the OIDs handed to the
found-OID callback, in order. -/

structure MonitorState where
  processedOids : List String
  processingOid : Bool
  shouldStopPolling : Bool
deriving DecidableEq, Repr

/-- The state after `startPolling` clears `processedOids` and both flags. -/
def initialMonitorState : MonitorState :=
  { processedOids := [], processingOid := false, shouldStopPolling := false }

/-- One `rapidPoll` tick of the first draft: take the first exam of
`DATA.filter(e => e.oid)`; if its OID is new, record it, mark processing,
fire `onOidFound`, and stop polling unconditionally. -/
def rapidPoll1 (s : MonitorState) (resp : Option (List ExamData)) :
    MonitorState × List String :=
  if s.shouldStopPolling then (s, [])
  else if s.processingOid then (s, [])
  else
    match resp with
    | none => (s, [])
    | some exams =>
      match exams.filter (fun e => truthyStr e.oid) with
      | [] => (s, [])
      | exam :: _ =>
        match exam.oid with
        | some oid =>
          if s.processedOids.contains oid then (s, [])
          else ({ processedOids := oid :: s.processedOids,
                  processingOid := true, shouldStopPolling := true }, [oid])
        | none => (s, [])

/-- Models `new Date(stamp).toISOString().split("T")[0]` and
`new Date(stamp).toTimeString().split(" ")[0]` as an oracle `conv` from the
stamp to the (date, local time) string pair. -/
def dateTimeMatches (conv : String → String × String)
    (targetDateStr targetTimeStr : String) (stamp : String) : Bool :=
  (conv stamp).1 == targetDateStr &&
    (conv stamp).2.take 5 == targetTimeStr.take 5

/-- The `for (const exam of data.DATA)` body of the second draft: skip exams
without a (truthy) `bookFromStamp` or not matching the target date/minute;
on a new truthy OID record it, mark processing, fire `onExamWithOid`, and
when `stopOnFirstOid` also stop polling and return at once. -/
def pollLoop2 (conv : String → String × String)
    (targetDateStr targetTimeStr : String) (stopOnFirstOid : Bool) :
    MonitorState → List ExamData → MonitorState × List String
  | s, [] => (s, [])
  | s, exam :: rest =>
    match exam.bookFromStamp with
    | none => pollLoop2 conv targetDateStr targetTimeStr stopOnFirstOid s rest
    | some stamp =>
      if stamp == "" then
        pollLoop2 conv targetDateStr targetTimeStr stopOnFirstOid s rest
      else if dateTimeMatches conv targetDateStr targetTimeStr stamp then
        match exam.oid with
        | some oid =>
          if oid == "" then
            pollLoop2 conv targetDateStr targetTimeStr stopOnFirstOid s rest
          else if s.processedOids.contains oid then
            pollLoop2 conv targetDateStr targetTimeStr stopOnFirstOid s rest
          else
            let s' : MonitorState :=
              { processedOids := oid :: s.processedOids,
                processingOid := true,
                shouldStopPolling := s.shouldStopPolling }
            if stopOnFirstOid then
              ({ s' with shouldStopPolling := true }, [oid])
            else
              let r := pollLoop2 conv targetDateStr targetTimeStr
                stopOnFirstOid s' rest
              (r.1, oid :: r.2)
        | none =>
          pollLoop2 conv targetDateStr targetTimeStr stopOnFirstOid s rest
      else pollLoop2 conv targetDateStr targetTimeStr stopOnFirstOid s rest

/-- One `rapidPoll` tick of the second draft. -/
def rapidPoll2 (conv : String → String × String)
    (targetDateStr targetTimeStr : String) (stopOnFirstOid : Bool)
    (s : MonitorState) (resp : Option (List ExamData)) :
    MonitorState × List String :=
  if s.shouldStopPolling then (s, [])
  else if s.processingOid then (s, [])
  else
    match resp with
    | none => (s, [])
    | some exams =>
      pollLoop2 conv targetDateStr targetTimeStr stopOnFirstOid s exams

structure PollTick where
  handlerDone : Bool
  resp : Option (List ExamData)

/-- A polling session of the first draft over a sequence of ticks. -/
def runPolls1 : MonitorState → List PollTick → MonitorState × List String
  | s, [] => (s, [])
  | s, t :: rest =>
    let s0 := if t.handlerDone then { s with processingOid := false } else s
    let r1 := rapidPoll1 s0 t.resp
    let r2 := runPolls1 r1.1 rest
    (r2.1, r1.2 ++ r2.2)

/-- A polling session of the second draft over a sequence of ticks. -/
def runPolls2 (conv : String → String × String)
    (targetDateStr targetTimeStr : String) (stopOnFirstOid : Bool) :
    MonitorState → List PollTick → MonitorState × List String
  | s, [] => (s, [])
  | s, t :: rest =>
    let s0 := if t.handlerDone then { s with processingOid := false } else s
    let r1 := rapidPoll2 conv targetDateStr targetTimeStr stopOnFirstOid
      s0 t.resp
    let r2 := runPolls2 conv targetDateStr targetTimeStr stopOnFirstOid
      r1.1 rest
    (r2.1, r1.2 ++ r2.2)

/-- The exam the first draft reacts to: the head of `DATA.filter(e => e.oid)`. -/
def firstTruthyOid1 (exams : List ExamData) : Option String :=
  match exams.filter (fun e => truthyStr e.oid) with
  | [] => none
  | e :: _ => e.oid

/-- An exam the second draft can react to: truthy `bookFromStamp` matching
the target date and minute, and a truthy `oid`. -/
def qualifies2 (conv : String → String × String)
    (targetDateStr targetTimeStr : String) (e : ExamData) : Bool :=
  (match e.bookFromStamp with
   | some st => !(st == "") &&
       dateTimeMatches conv targetDateStr targetTimeStr st
   | none => false) && truthyStr e.oid

def firstQualifyingOid2 (conv : String → String × String)
    (targetDateStr targetTimeStr : String) (exams : List ExamData) :
    Option String :=
  match exams.filter (qualifies2 conv targetDateStr targetTimeStr) with
  | [] => none
  | e :: _ => e.oid

/-- A tick of the first draft either does nothing or processes one new OID. -/
theorem rapidPoll1_cases (s : MonitorState) (resp : Option (List ExamData)) :
    rapidPoll1 s resp = (s, []) ∨
    ∃ oid, s.processedOids.contains oid = false ∧
      rapidPoll1 s resp =
        (⟨oid :: s.processedOids, true, true⟩, [oid]) := by
  unfold rapidPoll1
  split
  · exact Or.inl rfl
  split
  · exact Or.inl rfl
  split
  · exact Or.inl rfl
  split
  · exact Or.inl rfl
  split
  case h_1 oid heq =>
    split
    · exact Or.inl rfl
    next h => exact Or.inr ⟨oid, by simpa using h, rfl⟩
  case h_2 => exact Or.inl rfl

/-- Per-tick invariant of the first draft: processed OIDs only grow, and the
emitted OIDs are new and get recorded. -/
theorem rapidPoll1_inv (s : MonitorState) (resp : Option (List ExamData)) :
    (∀ o ∈ s.processedOids, o ∈ (rapidPoll1 s resp).1.processedOids) ∧
    (∀ o ∈ (rapidPoll1 s resp).2,
      o ∉ s.processedOids ∧ o ∈ (rapidPoll1 s resp).1.processedOids) ∧
    (rapidPoll1 s resp).2.Nodup := by
  rcases rapidPoll1_cases s resp with h | ⟨oid, hc, h⟩
  · rw [h]
    exact ⟨fun o ho => ho, fun o ho => absurd ho (List.not_mem_nil o),
      List.nodup_nil⟩
  · rw [h]
    refine ⟨fun o ho => List.mem_cons_of_mem _ ho, ?_, List.nodup_singleton _⟩
    intro o ho
    rw [List.mem_singleton.mp ho]
    exact ⟨by simpa using hc, List.mem_cons_self ..⟩

/-- Per-exam-loop invariant of the second draft. -/
theorem pollLoop2_inv (conv : String → String × String)
    (tds tts : String) (stop : Bool) :
    ∀ (exams : List ExamData) (s : MonitorState),
    (∀ o ∈ s.processedOids,
      o ∈ (pollLoop2 conv tds tts stop s exams).1.processedOids) ∧
    (∀ o ∈ (pollLoop2 conv tds tts stop s exams).2,
      o ∉ s.processedOids ∧
      o ∈ (pollLoop2 conv tds tts stop s exams).1.processedOids) ∧
    (pollLoop2 conv tds tts stop s exams).2.Nodup := by
  intro exams
  induction exams with
  | nil =>
    intro s
    exact ⟨fun o ho => ho, fun o ho => absurd ho (List.not_mem_nil o),
      List.nodup_nil⟩
  | cons exam rest ih =>
    intro s
    show (∀ o ∈ s.processedOids,
        o ∈ (pollLoop2 conv tds tts stop s (exam :: rest)).1.processedOids) ∧ _
    unfold pollLoop2
    split
    · exact ih s
    split
    · exact ih s
    split
    case isTrue =>
      split
      case h_1 oid hoid =>
        split
        · exact ih s
        split
        · exact ih s
        next hnew =>
          have hmemnew : oid ∉ s.processedOids := by simpa using hnew
          split
          case isTrue =>
            refine ⟨fun o ho => List.mem_cons_of_mem _ ho, ?_,
              List.nodup_singleton _⟩
            intro o ho
            rw [List.mem_singleton.mp ho]
            exact ⟨hmemnew, List.mem_cons_self ..⟩
          case isFalse =>
            obtain ⟨ihmono, ihout, ihnodup⟩ :=
              ih ⟨oid :: s.processedOids, true, s.shouldStopPolling⟩
            refine ⟨?_, ?_, ?_⟩
            · intro o ho
              exact ihmono o (List.mem_cons_of_mem _ ho)
            · intro o ho
              rcases List.mem_cons.mp ho with ho | ho
              · subst ho
                exact ⟨hmemnew, ihmono o (List.mem_cons_self ..)⟩
              · obtain ⟨hnot, hin⟩ := ihout o ho
                exact ⟨fun hmem => hnot (List.mem_cons_of_mem _ hmem), hin⟩
            · refine List.Nodup.cons ?_ ihnodup
              intro hmem
              exact (ihout oid hmem).1 (List.mem_cons_self ..)
      case h_2 => exact ih s
    case isFalse => exact ih s

/-- Per-tick invariant of the second draft. -/
theorem rapidPoll2_inv (conv : String → String × String)
    (tds tts : String) (stop : Bool) (s : MonitorState)
    (resp : Option (List ExamData)) :
    (∀ o ∈ s.processedOids,
      o ∈ (rapidPoll2 conv tds tts stop s resp).1.processedOids) ∧
    (∀ o ∈ (rapidPoll2 conv tds tts stop s resp).2,
      o ∉ s.processedOids ∧
      o ∈ (rapidPoll2 conv tds tts stop s resp).1.processedOids) ∧
    (rapidPoll2 conv tds tts stop s resp).2.Nodup := by
  unfold rapidPoll2
  split
  · exact ⟨fun o ho => ho, fun o ho => absurd ho (List.not_mem_nil o),
      List.nodup_nil⟩
  split
  · exact ⟨fun o ho => ho, fun o ho => absurd ho (List.not_mem_nil o),
      List.nodup_nil⟩
  split
  · exact ⟨fun o ho => ho, fun o ho => absurd ho (List.not_mem_nil o),
      List.nodup_nil⟩
  next exams => exact pollLoop2_inv conv tds tts stop exams s

/-- Session invariant over any step function satisfying the per-tick
invariant (the `handlerDone` reset touches only `processingOid`). -/
theorem runPolls_inv_generic
    (step : MonitorState → Option (List ExamData) →
      MonitorState × List String)
    (hstep : ∀ s resp,
      (∀ o ∈ s.processedOids, o ∈ (step s resp).1.processedOids) ∧
      (∀ o ∈ (step s resp).2,
        o ∉ s.processedOids ∧ o ∈ (step s resp).1.processedOids) ∧
      (step s resp).2.Nodup)
    (run : MonitorState → List PollTick → MonitorState × List String)
    (hrun_nil : ∀ s, run s [] = (s, []))
    (hrun_cons : ∀ s t rest, run s (t :: rest) =
      ((run ((step (if t.handlerDone then { s with processingOid := false }
          else s) t.resp).1) rest).1,
        (step (if t.handlerDone then { s with processingOid := false }
          else s) t.resp).2 ++
        (run ((step (if t.handlerDone then { s with processingOid := false }
          else s) t.resp).1) rest).2)) :
    ∀ (ticks : List PollTick) (s : MonitorState),
    (∀ o ∈ s.processedOids, o ∈ (run s ticks).1.processedOids) ∧
    (∀ o ∈ (run s ticks).2,
      o ∉ s.processedOids ∧ o ∈ (run s ticks).1.processedOids) ∧
    (run s ticks).2.Nodup := by
  intro ticks
  induction ticks with
  | nil =>
    intro s
    rw [hrun_nil s]
    exact ⟨fun o ho => ho, fun o ho => absurd ho (List.not_mem_nil o),
      List.nodup_nil⟩
  | cons t rest ih =>
    intro s
    rw [hrun_cons s t rest]
    set s0 := if t.handlerDone then { s with processingOid := false } else s
      with hs0
    have hs0proc : s0.processedOids = s.processedOids := by
      rw [hs0]
      cases t.handlerDone <;> rfl
    obtain ⟨smono, sout, snodup⟩ := hstep s0 t.resp
    obtain ⟨rmono, rout, rnodup⟩ := ih (step s0 t.resp).1
    rw [hs0proc] at smono sout
    refine ⟨?_, ?_, ?_⟩
    · intro o ho
      exact rmono o (smono o ho)
    · intro o ho
      rcases List.mem_append.mp ho with ho | ho
      · obtain ⟨hnot, hin⟩ := sout o ho
        exact ⟨hnot, rmono o hin⟩
      · obtain ⟨hnot, hin⟩ := rout o ho
        exact ⟨fun hmem => hnot (smono o hmem), hin⟩
    · rw [List.nodup_append]
      refine ⟨snodup, rnodup, ?_⟩
      intro o ho ho'
      exact (rout o ho').1 ((sout o ho).2)

end GoetheBot

namespace GoetheBot

/-- C1: OID deduplication.  In both drafts, over any polling session, an OID
already in `processedOids` is never handed to the found-OID callback, and
the callback receives each distinct OID at most once. -/
theorem c1_oid_dedup :
    (∀ (s : MonitorState) (ticks : List PollTick),
      (∀ o ∈ s.processedOids, o ∉ (runPolls1 s ticks).2) ∧
      (runPolls1 s ticks).2.Nodup) ∧
    (∀ (conv : String → String × String) (tds tts : String) (stop : Bool)
      (s : MonitorState) (ticks : List PollTick),
      (∀ o ∈ s.processedOids,
        o ∉ (runPolls2 conv tds tts stop s ticks).2) ∧
      (runPolls2 conv tds tts stop s ticks).2.Nodup) := by
  constructor
  · intro s ticks
    have h := runPolls_inv_generic rapidPoll1 rapidPoll1_inv runPolls1
      (fun s => rfl) (fun s t rest => rfl) ticks s
    exact ⟨fun o ho hout => (h.2.1 o hout).1 ho, h.2.2⟩
  · intro conv tds tts stop s ticks
    have h := runPolls_inv_generic (rapidPoll2 conv tds tts stop)
      (rapidPoll2_inv conv tds tts stop)
      (runPolls2 conv tds tts stop) (fun s => rfl) (fun s t rest => rfl)
      ticks s
    exact ⟨fun o ho hout => (h.2.1 o hout).1 ho, h.2.2⟩

/-- Witness for C1: with "X" already processed, a response carrying "X"
again produces no callback. -/
theorem c1_oid_dedup_witness :
    "X" ∉ (runPolls1 ⟨["X"], false, false⟩
      [⟨false, some [⟨some "X", none, none, none, none, none⟩]⟩]).2 ∧
    (runPolls2 (fun _ => ("d", "t")) "d" "t" true ⟨["X"], false, false⟩
      [⟨false, some [⟨some "X", none, none, none, none, none⟩]⟩]).2.Nodup := by
  have h := c1_oid_dedup
  exact ⟨(h.1 ⟨["X"], false, false⟩ _).1 "X" (List.mem_singleton_self "X"),
    (h.2 (fun _ => ("d", "t")) "d" "t" true ⟨["X"], false, false⟩ _).2⟩

/-- A non-qualifying exam is skipped by the second draft's loop. -/
theorem pollLoop2_skip (conv : String → String × String) (tds tts : String)
    (stop : Bool) (s : MonitorState) (e : ExamData) (rest : List ExamData)
    (hq : qualifies2 conv tds tts e = false) :
    pollLoop2 conv tds tts stop s (e :: rest) =
      pollLoop2 conv tds tts stop s rest := by
  simp only [pollLoop2]
  cases hbf : e.bookFromStamp with
  | none => rfl
  | some stamp =>
    simp only [qualifies2, hbf] at hq
    dsimp only
    by_cases hst : (stamp == "") = true
    · rw [if_pos hst]
    · rw [if_neg hst]
      by_cases hdm : dateTimeMatches conv tds tts stamp = true
      · rw [if_pos hdm]
        rw [Bool.not_eq_true] at hst
        simp only [hst, hdm, Bool.not_false, Bool.true_and, Bool.and_true]
          at hq
        cases hoid : e.oid with
        | none => rfl
        | some o =>
          rw [hoid] at hq
          have ho : (o == "") = true := by
            simpa [truthyStr] using hq
          dsimp only
          rw [if_pos ho]
      · rw [if_neg hdm]

/-- A qualifying exam with a new OID is processed and, with
`stopOnFirstOid`, terminates the loop at once. -/
theorem pollLoop2_process (conv : String → String × String)
    (tds tts : String) (s : MonitorState) (e : ExamData)
    (rest : List ExamData) (hq : qualifies2 conv tds tts e = true)
    (oid : String) (hoid : e.oid = some oid)
    (hnew : s.processedOids.contains oid = false) :
    pollLoop2 conv tds tts true s (e :: rest) =
      (⟨oid :: s.processedOids, true, true⟩, [oid]) := by
  unfold qualifies2 at hq
  cases hbf : e.bookFromStamp with
  | none => rw [hbf] at hq; cases hq
  | some stamp =>
    rw [hbf, hoid] at hq
    simp only [Bool.and_eq_true, Bool.not_eq_true', beq_eq_false_iff_ne,
      truthyStr] at hq
    obtain ⟨⟨hst, hdm⟩, htr⟩ := hq
    simp only [pollLoop2]
    rw [hbf]
    dsimp only
    have hmemnew : oid ∉ s.processedOids := by simpa using hnew
    rw [if_neg (by simpa using hst), if_pos hdm, hoid]
    dsimp only
    rw [if_neg (by simpa using htr),
      if_neg (fun hc => hmemnew (by simpa using hc))]
    rfl

/-- From the session-initial state, the second draft's loop fires the
callback exactly for the first qualifying exam and stops. -/
theorem pollLoop2_first (conv : String → String × String) (tds tts : String) :
    ∀ (exams : List ExamData) (oid : String),
    firstQualifyingOid2 conv tds tts exams = some oid →
    pollLoop2 conv tds tts true initialMonitorState exams =
      (⟨[oid], true, true⟩, [oid]) := by
  intro exams
  induction exams with
  | nil => intro oid h; exact absurd h (by simp [firstQualifyingOid2])
  | cons e rest ih =>
    intro oid h
    by_cases hq : qualifies2 conv tds tts e = true
    · unfold firstQualifyingOid2 at h
      rw [List.filter_cons_of_pos hq] at h
      dsimp only at h
      exact pollLoop2_process conv tds tts initialMonitorState e rest hq oid
        h rfl
    · rw [pollLoop2_skip conv tds tts true initialMonitorState e rest
        (Bool.not_eq_true _ ▸ hq)]
      refine ih oid ?_
      unfold firstQualifyingOid2 at h ⊢
      rwa [List.filter_cons_of_neg (by simpa using hq)] at h

end GoetheBot

namespace GoetheBot

/-- C2 as stated is false: an exam whose `oid` is present and unprocessed
does not always trigger the callback.  Second draft: an exam with
`oid = "X"` but no `bookFromStamp` (so no target-date match) is ignored and
polling continues.  First draft: an exam whose present `oid` is the empty
string is filtered out (JS truthiness) and polling continues. -/
theorem c2_counterexample :
    (rapidPoll2 (fun _ => ("1970-01-01", "00:00:00")) "2025-01-01"
      "08:00:00" true initialMonitorState
      (some [⟨some "X", none, none, none, none, none⟩])).2 = [] ∧
    (rapidPoll2 (fun _ => ("1970-01-01", "00:00:00")) "2025-01-01"
      "08:00:00" true initialMonitorState
      (some [⟨some "X", none, none, none, none, none⟩])).1.shouldStopPolling
      = false ∧
    (rapidPoll1 initialMonitorState
      (some [⟨some "", none, none, none, none, none⟩])).2 = [] ∧
    (rapidPoll1 initialMonitorState
      (some [⟨some "", none, none, none, none, none⟩])).1.shouldStopPolling
      = false := by
  exact ⟨rfl, rfl, rfl, rfl⟩

/-- C2 (amended): from the session-initial state, when a poll response
contains an exam with a present non-empty `oid` — in the second draft
additionally required to carry a `bookFromStamp` matching the target date
and minute — the monitor fires the found-OID callback with the first such
exam's OID, records it, and stops polling (first draft unconditionally;
second draft with `stopOnFirstOid = true`, the default). -/
theorem c2_first_oid_triggers_and_stops :
    (∀ (exams : List ExamData) (oid : String),
      firstTruthyOid1 exams = some oid →
      rapidPoll1 initialMonitorState (some exams) =
        (⟨[oid], true, true⟩, [oid])) ∧
    (∀ (conv : String → String × String) (tds tts : String)
      (exams : List ExamData) (oid : String),
      firstQualifyingOid2 conv tds tts exams = some oid →
      rapidPoll2 conv tds tts true initialMonitorState (some exams) =
        (⟨[oid], true, true⟩, [oid])) := by
  constructor
  · intro exams oid h
    unfold firstTruthyOid1 at h
    cases hf : exams.filter (fun e => truthyStr e.oid) with
    | nil => rw [hf] at h; exact absurd h (by simp)
    | cons e rest =>
      rw [hf] at h
      dsimp only at h
      show rapidPoll1 initialMonitorState (some exams) = _
      unfold rapidPoll1
      rw [if_neg (by simp [initialMonitorState]),
        if_neg (by simp [initialMonitorState])]
      dsimp only
      rw [hf]
      dsimp only
      rw [h]
      rfl
  · intro conv tds tts exams oid h
    show rapidPoll2 conv tds tts true initialMonitorState (some exams) = _
    unfold rapidPoll2
    rw [if_neg (by simp [initialMonitorState]),
      if_neg (by simp [initialMonitorState])]
    exact pollLoop2_first conv tds tts exams oid h

/-- Witness for C2 (amended) on concrete responses for both drafts. -/
theorem c2_first_oid_triggers_and_stops_witness :
    rapidPoll1 initialMonitorState
      (some [⟨none, none, none, none, none, none⟩,
        ⟨some "A", none, none, none, none, none⟩]) =
      (⟨["A"], true, true⟩, ["A"]) ∧
    rapidPoll2 (fun _ => ("2025-01-01", "08:00:59")) "2025-01-01"
      "08:00:30" true initialMonitorState
      (some [⟨some "X", none, none, none, none, none⟩,
        ⟨some "B", none, some "st", none, none, none⟩]) =
      (⟨["B"], true, true⟩, ["B"]) := by
  have h := c2_first_oid_triggers_and_stops
  exact ⟨h.1 _ "A" (by decide),
    h.2 (fun _ => ("2025-01-01", "08:00:59")) "2025-01-01" "08:00:30" _ "B"
      (by decide)⟩

/-! ### `prioritizeExams` (second draft of `exam-api-finder.ts`)

`exams.sort(comparator)` where the comparator keys each exam by the first
index in `priorityLocations` whose lower-cased entry is a substring of the
exam's lower-cased `locationName` (key `-1` when none matches, treated as
last).  JS `Array.prototype.sort` is a stable comparison sort; it is
modelled by `List.mergeSort`, which is also stable. -/

/-- JS `hay.includes(needle)` (substring containment). -/
def strIncludes (hay needle : String) : Bool :=
  decide (List.IsInfix needle.toList hay.toList)

/-- JS `toLowerCase`, modelled character-wise. -/
def lowerStr (s : String) : String :=
  String.mk (s.data.map Char.toLower)

/-- Models `exam.locationName?.toLowerCase() || ""`. -/
def lowerLocation (e : ExamData) : String :=
  lowerStr (e.locationName.getD "")

/-- The `forEach` over `priorityLocations` keeping the first matching
index (`aPriority === -1` guard), as a recursion carrying the index. -/
def priorityIndexAux (loc : String) : List String → Nat → Option Nat
  | [], _ => none
  | p :: rest, i =>
    if strIncludes loc (lowerStr p) then some i
    else priorityIndexAux loc rest (i + 1)

def priorityIndex (priorityLocations : List String) (e : ExamData) :
    Option Nat :=
  priorityIndexAux (lowerLocation e) priorityLocations 0

/-- The comparator closed over `priorityLocations`:
`aPriority - bPriority` when both match, `-1`/`1` when exactly one does,
`0` otherwise. -/
def examCmp (pl : List String) (a b : ExamData) : Int :=
  match priorityIndex pl a, priorityIndex pl b with
  | some i, some j => (i : Int) - (j : Int)
  | some _, none => -1
  | none, some _ => 1
  | none, none => 0

/-- The "does not come after" relation induced by the comparator. -/
def examLE (pl : List String) (a b : ExamData) : Bool :=
  decide (examCmp pl a b ≤ 0)

/-- Models `prioritizeExams`: unchanged when `priorityLocations` is empty,
otherwise the comparator-driven stable sort. -/
def prioritizeExams (exams : List ExamData)
    (priorityLocations : List String) : List ExamData :=
  if priorityLocations.length = 0 then exams
  else exams.mergeSort (examLE priorityLocations)

/-- The sort key as a `Nat`: first matching index, or `pl.length` ("last")
when no priority location matches. -/
def examRank (pl : List String) (e : ExamData) : Nat :=
  match priorityIndex pl e with
  | some i => i
  | none => pl.length

theorem priorityIndexAux_lt (loc : String) :
    ∀ (pl : List String) (start i : Nat),
    priorityIndexAux loc pl start = some i →
    start ≤ i ∧ i < start + pl.length := by
  intro pl
  induction pl with
  | nil => intro start i h; exact absurd h (by simp [priorityIndexAux])
  | cons p rest ih =>
    intro start i h
    unfold priorityIndexAux at h
    by_cases hm : strIncludes loc (lowerStr p) = true
    · rw [if_pos hm] at h
      obtain rfl := Option.some.inj h
      simp
    · rw [if_neg hm] at h
      have := ih (start + 1) i h
      constructor <;> [omega; (simp only [List.length_cons]; omega)]

theorem priorityIndex_lt (pl : List String) (e : ExamData) (i : Nat)
    (h : priorityIndex pl e = some i) : i < pl.length := by
  have := priorityIndexAux_lt (lowerLocation e) pl 0 i h
  omega

/-- The relation `examLE` coincides with comparison of the `Nat` ranks. -/
theorem examLE_iff_rank (pl : List String) (a b : ExamData) :
    examLE pl a b = true ↔ examRank pl a ≤ examRank pl b := by
  unfold examLE examRank examCmp
  cases ha : priorityIndex pl a with
  | some i =>
    cases hb : priorityIndex pl b with
    | some j =>
      dsimp only
      simp only [decide_eq_true_eq]
      omega
    | none =>
      have hlt := priorityIndex_lt pl a i ha
      dsimp only
      simp only [decide_eq_true_eq]
      exact iff_of_true (by omega) (by omega)
  | none =>
    cases hb : priorityIndex pl b with
    | some j =>
      have hlt := priorityIndex_lt pl b j hb
      dsimp only
      simp only [decide_eq_true_eq]
      exact iff_of_false (by omega) (by omega)
    | none =>
      dsimp only
      simp only [decide_eq_true_eq]
      exact iff_of_true (by omega) (Nat.le_refl _)

theorem priorityIndexAux_isSome_iff (loc : String) :
    ∀ (pl : List String) (start : Nat),
    (priorityIndexAux loc pl start).isSome = true ↔
      ∃ p ∈ pl, strIncludes loc (lowerStr p) = true := by
  intro pl
  induction pl with
  | nil => intro start; simp [priorityIndexAux]
  | cons p rest ih =>
    intro start
    unfold priorityIndexAux
    by_cases hm : strIncludes loc (lowerStr p) = true
    · rw [if_pos hm]
      simp [hm]
    · rw [if_neg hm]
      rw [ih (start + 1)]
      constructor
      · rintro ⟨q, hq, hqs⟩
        exact ⟨q, List.mem_cons_of_mem _ hq, hqs⟩
      · rintro ⟨q, hq, hqs⟩
        rcases List.mem_cons.mp hq with rfl | hq
        · exact absurd hqs hm
        · exact ⟨q, hq, hqs⟩

end GoetheBot

namespace GoetheBot

/-- C10: `prioritizeExams` returns a permutation of its input; with no
priority locations it is the unchanged input; the output is ordered by
nondecreasing rank — so every exam whose location contains some priority
location (rank `< pl.length`) precedes every exam matching none (rank
`= pl.length`), and of two matching exams the one whose first matching
priority location has the smaller index comes first; an exam matches some
priority location iff its rank is below `pl.length`. -/
theorem c10_prioritize_exams :
    (∀ (exams : List ExamData) (pl : List String),
      (prioritizeExams exams pl).Perm exams) ∧
    (∀ exams : List ExamData, prioritizeExams exams [] = exams) ∧
    (∀ (exams : List ExamData) (pl : List String),
      (prioritizeExams exams pl).Pairwise
        (fun a b => examRank pl a ≤ examRank pl b)) ∧
    (∀ (pl : List String) (e : ExamData),
      (∃ p ∈ pl, strIncludes (lowerLocation e) (lowerStr p) = true) ↔
        examRank pl e < pl.length) := by
  have htrans : ∀ (pl : List String) (a b c : ExamData),
      examLE pl a b → examLE pl b c → examLE pl a c := by
    intro pl a b c hab hbc
    rw [examLE_iff_rank] at hab hbc ⊢
    omega
  have htotal : ∀ (pl : List String) (a b : ExamData),
      examLE pl a b || examLE pl b a := by
    intro pl a b
    rcases Nat.le_total (examRank pl a) (examRank pl b) with h | h
    · rw [Bool.or_eq_true]
      exact Or.inl ((examLE_iff_rank pl a b).mpr h)
    · rw [Bool.or_eq_true]
      exact Or.inr ((examLE_iff_rank pl b a).mpr h)
  refine ⟨?_, ?_, ?_, ?_⟩
  · intro exams pl
    unfold prioritizeExams
    by_cases h : pl.length = 0
    · rw [if_pos h]
    · rw [if_neg h]
      exact List.mergeSort_perm exams (examLE pl)
  · intro exams
    rfl
  · intro exams pl
    unfold prioritizeExams
    by_cases h : pl.length = 0
    · rw [if_pos h]
      have hl : pl = [] := List.length_eq_zero.mp h
      subst hl
      induction exams with
      | nil => exact List.Pairwise.nil
      | cons x xs ih =>
        exact List.Pairwise.cons (fun y hy => Nat.le_refl 0) ih
    · rw [if_neg h]
      have hs := @List.sorted_mergeSort ExamData (examLE pl)
        (fun a b c => htrans pl a b c) (fun a b => htotal pl a b) exams
      exact hs.imp (fun hab => (examLE_iff_rank pl _ _).mp hab)
  · intro pl e
    constructor
    · intro hex
      have hsome : (priorityIndexAux (lowerLocation e) pl 0).isSome = true :=
        (priorityIndexAux_isSome_iff _ pl 0).mpr hex
      obtain ⟨i, hi⟩ := Option.isSome_iff_exists.mp hsome
      have hlt := priorityIndex_lt pl e i hi
      unfold examRank
      rw [show priorityIndex pl e = some i from hi]
      exact hlt
    · intro hlt
      rw [← priorityIndexAux_isSome_iff (lowerLocation e) pl 0]
      unfold examRank at hlt
      cases hp : priorityIndex pl e with
      | some i =>
        rw [show priorityIndexAux (lowerLocation e) pl 0 = some i from hp]
        rfl
      | none =>
        rw [hp] at hlt
        dsimp only at hlt
        omega

/-- Witness for C10 at a concrete input: the output is a permutation, the
empty priority list changes nothing, and the Chennai exam matches the
default priority list with rank 0. -/
theorem c10_prioritize_exams_witness :
    (prioritizeExams
      [⟨none, none, none, none, none, some "Goethe-Institut Delhi"⟩,
        ⟨none, none, none, none, none, some "Goethe-Institut Chennai"⟩]
      ["chennai", "bengal", "bangalore"]).Perm
      [⟨none, none, none, none, none, some "Goethe-Institut Delhi"⟩,
        ⟨none, none, none, none, none, some "Goethe-Institut Chennai"⟩] ∧
    prioritizeExams
      [⟨none, none, none, none, none, some "Goethe-Institut Delhi"⟩] [] =
      [⟨none, none, none, none, none, some "Goethe-Institut Delhi"⟩] ∧
    (∃ p ∈ ["chennai", "bengal", "bangalore"], strIncludes
      (lowerLocation
        ⟨none, none, none, none, none, some "Goethe-Institut Chennai"⟩)
      (lowerStr p) = true) ∧
    examRank ["chennai", "bengal", "bangalore"]
      ⟨none, none, none, none, none, some "Goethe-Institut Chennai"⟩ < 3 := by
  have h := c10_prioritize_exams
  have hrank : examRank ["chennai", "bengal", "bangalore"]
      ⟨none, none, none, none, none, some "Goethe-Institut Chennai"⟩ < 3 := by
    decide
  refine ⟨h.1 _ _, h.2.1 _, ?_, hrank⟩
  exact (h.2.2.2 ["chennai", "bengal", "bangalore"]
    ⟨none, none, none, none, none, some "Goethe-Institut Chennai"⟩).mpr hrank

end GoetheBot
